import Mathlib

/-!
Verification of the Triad369 Launchpad core: port allocation, runtime state
store, process stop logic, and the artifact packager (manifest build, write,
verify, deterministic zip, exclusion rules).

Python strings are modelled as lists of characters (`Str`), Python dicts as
association lists that update the first matching key in place and append new
keys at the end (insertion-order semantics), and JSON documents as a `JValue`
inductive.  Ambient effects (the TCP bind probe, the filesystem, wall-clock
timestamps, SHA-256) are passed explicitly as oracles/parameters: the probe
becomes `free : Nat → Bool`, the hash a function parameter `h`, timestamps a
`Str` parameter.
-/

namespace Launchpad

/-- Python `str` modelled as a list of characters. -/
abbrev Str := List Char

/-- Embed a Lean string literal into the model. -/
def str (s : String) : Str := s.data

/-! ## Port allocator (`launchpad/apps/runner.py`) -/

/-- The loop of `allocate_port`: walk the candidate ports in order, skip ports
in `used` (the `continue`), return the first remaining port for which the
`is_port_free` probe (`free`) succeeds. -/
def allocGo (free : Nat → Bool) (used : List Nat) : List Nat → Option Nat
  | [] => none
  | p :: rest =>
      if p ∈ used then allocGo free used rest
      else if free p then some p
      else allocGo free used rest

/-- Model of `allocate_port(start, end, used)` from `launchpad/apps/runner.py`: scans
`range(start, end + 1)`. `free` is the oracle for `is_port_free` (the loopback
TCP bind probe at call time); `none` models raising the exhaustion
`RuntimeError` ("No free ports in range ..."), the spec's `NoFreePortError`. -/
def allocate_port (start stop : Nat) (used : List Nat) (free : Nat → Bool) : Option Nat :=
  allocGo free used (List.range' start (stop + 1 - start))

lemma allocGo_some (free : Nat → Bool) (used : List Nat) :
    ∀ (n s p : Nat), allocGo free used (List.range' s n) = some p →
      s ≤ p ∧ p < s + n ∧ p ∉ used ∧ free p = true ∧
        ∀ q, s ≤ q → q < p → q ∈ used ∨ free q = false := by
  intro n
  induction n with
  | zero => intro s p h; simp [List.range', allocGo] at h
  | succ n ih =>
      intro s p h
      rw [List.range'] at h
      by_cases hs : s ∈ used
      · rw [allocGo, if_pos hs] at h
        obtain ⟨h1, h2, h3, h4, h5⟩ := ih (s + 1) p h
        refine ⟨by omega, by omega, h3, h4, ?_⟩
        intro q hq1 hq2
        rcases Nat.eq_or_lt_of_le hq1 with rfl | hlt
        · exact Or.inl hs
        · exact h5 q hlt hq2
      · rw [allocGo, if_neg hs] at h
        by_cases hf : free s
        · rw [if_pos hf] at h
          cases h
          exact ⟨le_refl _, by omega, hs, hf, fun q hq1 hq2 => absurd hq2 (by omega)⟩
        · rw [if_neg hf] at h
          obtain ⟨h1, h2, h3, h4, h5⟩ := ih (s + 1) p h
          refine ⟨by omega, by omega, h3, h4, ?_⟩
          intro q hq1 hq2
          rcases Nat.eq_or_lt_of_le hq1 with rfl | hlt
          · exact Or.inr (by simpa using hf)
          · exact h5 q hlt hq2

lemma allocGo_none (free : Nat → Bool) (used : List Nat) :
    ∀ (n s : Nat), allocGo free used (List.range' s n) = none →
      ∀ q, s ≤ q → q < s + n → q ∈ used ∨ free q = false := by
  intro n
  induction n with
  | zero => intro s _ q hq1 hq2; omega
  | succ n ih =>
      intro s h q hq1 hq2
      rw [List.range'] at h
      by_cases hs : s ∈ used
      · rw [allocGo, if_pos hs] at h
        rcases Nat.eq_or_lt_of_le hq1 with rfl | hlt
        · exact Or.inl hs
        · exact ih (s + 1) h q hlt (by omega)
      · rw [allocGo, if_neg hs] at h
        by_cases hf : free s
        · rw [if_pos hf] at h; cases h
        · rw [if_neg hf] at h
          rcases Nat.eq_or_lt_of_le hq1 with rfl | hlt
          · exact Or.inr (by simpa using hf)
          · exact ih (s + 1) h q hlt (by omega)

/-- C1: for every port range `[s, e]` and exclusion set `used`,
`allocate_port` returns the lowest port `p` with `s ≤ p ≤ e`, `p ∉ used`, and
`p` bindable at call time (per the `free` probe); if no such port exists it
fails with the exhaustion error (modelled by `none`), and a range with
`start > end` fails immediately. -/
theorem allocate_port_correct (s e : Nat) (used : List Nat) (free : Nat → Bool) :
    (∀ p, allocate_port s e used free = some p →
        (s ≤ p ∧ p ≤ e ∧ p ∉ used ∧ free p = true) ∧
          ∀ q, s ≤ q → q ≤ e → q ∉ used → free q = true → p ≤ q) ∧
    ((∃ p, s ≤ p ∧ p ≤ e ∧ p ∉ used ∧ free p = true) →
        ∃ p, allocate_port s e used free = some p) ∧
    ((∀ p, s ≤ p → p ≤ e → p ∉ used → free p = true → False) →
        allocate_port s e used free = none) ∧
    (e < s → allocate_port s e used free = none) := by
  refine ⟨?_, ?_, ?_, ?_⟩
  · intro p hp
    obtain ⟨h1, h2, h3, h4, h5⟩ := allocGo_some free used (e + 1 - s) s p hp
    refine ⟨⟨h1, by omega, h3, h4⟩, ?_⟩
    intro q hq1 hq2 hq3 hq4
    by_contra hqp
    rcases h5 q hq1 (by omega) with hc | hc
    · exact hq3 hc
    · rw [hq4] at hc; cases hc
  · rintro ⟨p, hp1, hp2, hp3, hp4⟩
    cases halloc : allocate_port s e used free with
    | some p' => exact ⟨p', rfl⟩
    | none =>
        rcases allocGo_none free used (e + 1 - s) s halloc p hp1 (by omega) with hc | hc
        · exact absurd hc hp3
        · rw [hp4] at hc; cases hc
  · intro hall
    cases halloc : allocate_port s e used free with
    | none => rfl
    | some p =>
        obtain ⟨h1, h2, h3, h4, h5⟩ :=
          allocGo_some free used (e + 1 - s) s p halloc
        exact absurd (hall p h1 (by omega) h3 h4) not_false
  · intro hlt
    have : e + 1 - s = 0 := by omega
    rw [allocate_port, this]
    rfl

/-- Witness for C1 at a concrete input: range `[1, 3]`, exclusion `{2}`,
probe allowing ports `≥ 2`; the allocator returns `3`, which satisfies all
the claimed properties. -/
theorem allocate_port_correct_witness :
    1 ≤ 3 ∧ 3 ≤ 3 ∧ 3 ∉ [2] ∧ (fun p => decide (2 ≤ p)) 3 = true :=
  (((allocate_port_correct 1 3 [2] (fun p => decide (2 ≤ p))).1) 3 (by decide)).1

/-! ## Batch run (`apps_run` in `launchpad/cli.py`) -/

/-- ASCII whitespace stripped by Python's `str.strip()`. -/
def isPySpace (c : Char) : Bool :=
  (c == ' ') || (c == '\t') || (c == '\n') || (c == '\r') || (c == '\x0b') || (c == '\x0c')

/-- Python `str.strip()`: drop whitespace from both ends. -/
def pyStrip (s : Str) : Str :=
  ((s.dropWhile isPySpace).reverse.dropWhile isPySpace).reverse

/-- The registry fields of `AppConfig` (`launchpad/apps/registry.py`) that the
`apps run` loop reads; the remaining registry fields (repo_url, app_type,
install_cmd, ...) do not participate in port assignment. -/
structure AppConfig where
  name : Str
  path : Str
  start_cmd : Str
  default_port : Nat
  port_max : Nat

/-- An app is started by `apps_run` iff its working directory exists and its
start command is non-blank (`a.start_cmd.strip()` truthy). -/
def runEligible (dirExists : Str → Bool) (a : AppConfig) : Bool :=
  dirExists a.path && !(pyStrip a.start_cmd == [])

/-- The port-assignment skeleton of `apps_run` (`launchpad/cli.py`): iterate
the selected apps in order with an accumulating `used` set; skip apps with a
missing directory or a blank start command; otherwise allocate a port
excluding `used` and add it to `used`.  The launched process, the `{PORT}`
substitution and the runtime-record write are side effects that do not feed
back into port assignment; `none` models the exhaustion `RuntimeError`
aborting the command. -/
def apps_run_ports (dirExists : Str → Bool) (free : Nat → Bool) :
    List AppConfig → List Nat → Option (List (Str × Nat))
  | [], _ => some []
  | a :: rest, used =>
      if dirExists a.path = false then apps_run_ports dirExists free rest used
      else if pyStrip a.start_cmd = [] then apps_run_ports dirExists free rest used
      else
        match allocate_port a.default_port a.port_max used free with
        | none => none
        | some p =>
            (apps_run_ports dirExists free rest (p :: used)).map (fun l => (a.name, p) :: l)

/-- C4: in a single `apps run` batch, every app whose directory exists and
whose start command is non-empty gets a port; each assigned port avoids the
initial exclusion set, and no two apps in the batch are ever assigned the
same port. -/
theorem apps_run_distinct_ports (dirExists : Str → Bool) (free : Nat → Bool)
    (apps : List AppConfig) (used : List Nat) (l : List (Str × Nat))
    (h : apps_run_ports dirExists free apps used = some l) :
    l.map Prod.fst = ((apps.filter (runEligible dirExists)).map AppConfig.name) ∧
      (∀ x ∈ l, x.2 ∉ used) ∧
      (l.map Prod.snd).Nodup := by
  induction apps generalizing used l with
  | nil =>
      rw [apps_run_ports] at h
      cases h
      simp
  | cons a rest ih =>
      rw [apps_run_ports] at h
      by_cases h1 : dirExists a.path = false
      · rw [if_pos h1] at h
        obtain ⟨hnames, hused, hnodup⟩ := ih used l h
        refine ⟨?_, hused, hnodup⟩
        rw [List.filter_cons, if_neg (by simp [runEligible, h1])]
        exact hnames
      · rw [if_neg h1] at h
        by_cases h2 : pyStrip a.start_cmd = []
        · rw [if_pos h2] at h
          obtain ⟨hnames, hused, hnodup⟩ := ih used l h
          refine ⟨?_, hused, hnodup⟩
          rw [List.filter_cons, if_neg (by simp [runEligible, h2])]
          exact hnames
        · rw [if_neg h2] at h
          split at h
          · cases h
          · rename_i p halloc
            obtain ⟨l', hrest, hl⟩ := Option.map_eq_some'.mp h
            have hl2 : (a.name, p) :: l' = l := hl
            subst hl2
            obtain ⟨hp1, hp2, hp3, hp4, hp5⟩ :=
              allocGo_some free used (a.port_max + 1 - a.default_port)
                a.default_port p halloc
            obtain ⟨hnames, hused, hnodup⟩ := ih (p :: used) l' hrest
            have h1' : dirExists a.path = true := by
              cases hb : dirExists a.path
              · exact absurd hb h1
              · rfl
            refine ⟨?_, ?_, ?_⟩
            · rw [List.filter_cons, if_pos (by simp [runEligible, h2, h1'])]
              simpa using hnames
            · intro x hx
              rcases List.mem_cons.mp hx with rfl | hx'
              · exact hp3
              · intro hc
                exact hused x hx' (List.mem_cons_of_mem p hc)
            · rw [List.map_cons]
              refine List.nodup_cons.mpr ⟨?_, hnodup⟩
              intro hc
              obtain ⟨x, hx, hxp⟩ := List.mem_map.mp hc
              exact hused x hx (hxp ▸ List.mem_cons_self p used)

/-- Witness for C4: two apps `a` and `b`, both with port range 9000–9002 and a
probe that reports every port bindable; the batch assigns `a → 9000` and
`b → 9001`, distinct ports for both eligible apps. -/
theorem apps_run_distinct_ports_witness :
    ([((str "a"), 9000), ((str "b"), 9001)].map Prod.fst
        = (([⟨str "a", str "wa", str "python main.py", 9000, 9002⟩,
             ⟨str "b", str "wb", str "python main.py", 9000, 9002⟩].filter
              (runEligible (fun _ => true))).map AppConfig.name)) ∧
      (∀ x ∈ [((str "a"), 9000), ((str "b"), 9001)], x.2 ∉ ([] : List Nat)) ∧
      ([((str "a"), 9000), ((str "b"), 9001)].map Prod.snd).Nodup :=
  apps_run_distinct_ports (fun _ => true) (fun _ => true)
    [⟨str "a", str "wa", str "python main.py", 9000, 9002⟩,
     ⟨str "b", str "wb", str "python main.py", 9000, 9002⟩] []
    [((str "a"), 9000), ((str "b"), 9001)] (by decide)

/-! ## Runtime state store (`launchpad/apps/runtime.py`) -/

/-- JSON values.  Python dicts preserve insertion order, so JSON objects are
ordered association lists; JSON numbers appearing in this program (pids,
ports) are integers. -/
inductive JValue where
  | null
  | bool (b : Bool)
  | num (n : Int)
  | str (s : Str)
  | arr (xs : List JValue)
  | obj (kvs : List (Str × JValue))

/-- Python dict assignment `d[k] = v`: replace the first matching key in
place, else append the new pair at the end. -/
def setKey {α : Type} : List (Str × α) → Str → α → List (Str × α)
  | [], k, v => [(k, v)]
  | (k', v') :: rest, k, v =>
      if k' = k then (k, v) :: rest else (k', v') :: setKey rest k v

/-- Python `dict.setdefault(k, v)`: append `(k, v)` iff `k` is absent. -/
def setdefault {α : Type} (kvs : List (Str × α)) (k : Str) (v : α) : List (Str × α) :=
  if (kvs.lookup k).isSome then kvs else kvs ++ [(k, v)]

/-- The runtime-state file as seen by `load_runtime`: `none` = the file does
not exist, `some none` = the file exists but `json.loads` fails on it,
`some (some v)` = its text parses to the JSON value `v`. -/
abbrev FileState := Option (Option JValue)

/-- The dictionary returned by `load_runtime`: missing file, parse failure
and a non-dict top level all yield `{"apps": {}}`; a dict top level gets
`"apps"` inserted by `setdefault` if absent and is returned as-is. -/
def load_runtime_kvs (file : FileState) : List (Str × JValue) :=
  match file with
  | some (some (.obj kvs)) => setdefault kvs (str "apps") (.obj [])
  | _ => [(str "apps", .obj [])]

/-- Model of `load_runtime` from `launchpad/apps/runtime.py`. -/
def load_runtime (file : FileState) : JValue :=
  .obj (load_runtime_kvs file)

/-- Model of `save_runtime`: it writes `json.dumps(data) + "\n"`.  `JValue` is exactly the
JSON-representable values, so the written text parses back to the same
value: the resulting file state is `some (some v)`. -/
def save_runtime (v : JValue) : FileState :=
  some (some v)

/-- C5: `load_runtime` on a missing file, an unparseable file, or a file
whose top-level JSON value is not an object returns the empty runtime
mapping `{"apps": {}}`; all three cases return normally (the embedding is a
total function — the `try/except` swallows every parse error). -/
theorem load_runtime_corrupt (v : JValue) (hv : ∀ kvs, v ≠ .obj kvs) :
    load_runtime none = .obj [(str "apps", .obj [])] ∧
      load_runtime (some none) = .obj [(str "apps", .obj [])] ∧
      load_runtime (some (some v)) = .obj [(str "apps", .obj [])] := by
  refine ⟨rfl, rfl, ?_⟩
  cases v with
  | obj kvs => exact absurd rfl (hv kvs)
  | null => rfl
  | bool b => rfl
  | num n => rfl
  | str s => rfl
  | arr xs => rfl

/-- Witness for C5 at the concrete non-object value `null`. -/
theorem load_runtime_corrupt_witness :
    load_runtime none = .obj [(str "apps", .obj [])] ∧
      load_runtime (some none) = .obj [(str "apps", .obj [])] ∧
      load_runtime (some (some .null)) = .obj [(str "apps", .obj [])] :=
  load_runtime_corrupt .null (fun _ h => JValue.noConfusion h)

/-- C6: for a runtime-state document (a JSON object carrying the top-level
`"apps"` key, as every document written by this program does),
`save_runtime` followed by `load_runtime` on the same path returns an equal
mapping. -/
theorem save_load_roundtrip (kvs : List (Str × JValue))
    (h : (kvs.lookup (str "apps")).isSome = true) :
    load_runtime (save_runtime (.obj kvs)) = .obj kvs := by
  simp [load_runtime, load_runtime_kvs, save_runtime, setdefault, h]

/-- Witness for C6 at the concrete state `{"apps": {}}`. -/
theorem save_load_roundtrip_witness :
    load_runtime (save_runtime (.obj [(str "apps", .obj [])]))
      = JValue.obj [(str "apps", .obj [])] :=
  save_load_roundtrip [(str "apps", .obj [])] (by decide)

/-! ## Runtime mutations (`launchpad/apps/runner.py`) and `apps_stop`
(`launchpad/cli.py`) -/

/-- Model of `update_runtime_running(path, app_name, payload)`: load, `setdefault`
the `"apps"` table, store `payload` under `app_name`, save.  `none` models
the `TypeError` raised by item assignment when the loaded document's
`"apps"` value is not a dict. -/
def update_runtime_running (file : FileState) (app_name : Str) (payload : JValue) :
    Option FileState :=
  match load_runtime file with
  | .obj kvs =>
      let kvs' := setdefault kvs (str "apps") (.obj [])
      match kvs'.lookup (str "apps") with
      | some (.obj apps) =>
          some (save_runtime
            (.obj (setKey kvs' (str "apps") (.obj (setKey apps app_name payload)))))
      | _ => none
  | _ => none

/-- The record produced by `mark_stopped` on an existing record dict:
`info["stopped_at"] = ts; info["running"] = False`. -/
def markedInfo (info : List (Str × JValue)) (ts : Str) : List (Str × JValue) :=
  setKey (setKey info (str "stopped_at") (.str ts)) (str "running") (.bool false)

/-- Model of `mark_stopped(path, app_name)`: load, fetch
`rt.get("apps", {}).get(app_name)`, and if it is a dict set its
`stopped_at`/`running` fields in place; save the document in every
non-raising case.  The timestamp is `ts` (`datetime.now(...)` passed
explicitly); `none` models the `AttributeError` raised when the loaded
`"apps"` value is not a dict. -/
def mark_stopped (file : FileState) (app_name ts : Str) : Option FileState :=
  match load_runtime file with
  | .obj kvs =>
      match kvs.lookup (str "apps") with
      | some (.obj apps) =>
          match apps.lookup app_name with
          | some (.obj info) =>
              some (save_runtime (.obj (setKey kvs (str "apps")
                (.obj (setKey apps app_name (.obj (markedInfo info ts)))))))
          | _ => some (save_runtime (.obj kvs))
      | some _ => none
      | none => some (save_runtime (.obj kvs))
  | _ => none

/-- Digits accumulator for `pyStrToInt`. -/
def natOfDigitsGo : List Char → Nat → Option Nat
  | [], acc => some acc
  | c :: cs, acc =>
      if c.isDigit then natOfDigitsGo cs (acc * 10 + (c.toNat - 48)) else none

/-- A non-empty run of decimal digits. -/
def natOfDigits : List Char → Option Nat
  | [] => none
  | ds => natOfDigitsGo ds 0

/-- Python `int(str)`: strip whitespace, optional sign, decimal digits
(underscore digit grouping is not modelled); `none` models `ValueError`. -/
def pyStrToInt (s : Str) : Option Int :=
  match pyStrip s with
  | '+' :: ds => (natOfDigits ds).map Int.ofNat
  | '-' :: ds => (natOfDigits ds).map (fun n => -(n : Int))
  | ds => (natOfDigits ds).map Int.ofNat

/-- Python `int(x)` on JSON values: ints pass through, booleans become 0/1,
digit strings parse; `none` models the `TypeError`/`ValueError` raised for
`None`, lists and dicts. -/
def pyInt : JValue → Option Int
  | .num n => some n
  | .bool b => some (if b then 1 else 0)
  | .str s => pyStrToInt s
  | _ => none

/-- The pid extraction `pid = int(info.get("pid", 0)) if isinstance(info, dict) else 0` from
`apps_stop`. -/
def stopPid (info : JValue) : Option Int :=
  match info with
  | .obj kvs =>
      match kvs.lookup (str "pid") with
      | none => some 0
      | some v => pyInt v
  | _ => some 0

/-- The expression `rt.get("apps", {}) if isinstance(rt.get("apps", {}), dict) else {}`:
the apps table of a loaded runtime document, empty when its `"apps"` value
is not a dict. -/
def loadApps (file : FileState) : List (Str × JValue) :=
  match (load_runtime_kvs file).lookup (str "apps") with
  | some (.obj apps) => apps
  | _ => []

/-- The stored record of app `m`: what a fresh load of the store shows. -/
def storedApp (file : FileState) (m : Str) : Option JValue :=
  (loadApps file).lookup m

/-- The per-target loop of `apps_stop`: `all_rt` is the apps table read once
before the loop (so pids are read from the pre-loop snapshot), each target's
`pid` is extracted, a `SIGTERM` is attempted when `pid > 0` with every
exception from `os.kill` swallowed (`killOk` is the delivery oracle; it does
not influence control flow or state), then `mark_stopped` re-reads and
rewrites the store.  Output: final file state plus the attempted signals as
`(target, pid, delivered)`; `none` models an uncaught exception (a
non-numeric `pid` value, or a non-dict `"apps"` document). -/
def sentFor (n : Str) (pid : Int) (delivered : Bool) : List (Str × Int × Bool) :=
  if 0 < pid then [(n, pid, delivered)] else []

/-- The per-target loop of `apps_stop`: `all_rt` is the apps table read once
before the loop (so pids are read from the pre-loop snapshot), each target's
`pid` is extracted, a `SIGTERM` is attempted when `pid > 0` with every
exception from `os.kill` swallowed (`killOk` is the delivery oracle; it does
not influence control flow or state), then `mark_stopped` re-reads and
rewrites the store.  Output: final file state plus the attempted signals as
`(target, pid, delivered)`; `none` models an uncaught exception (a
non-numeric `pid` value, or a non-dict `"apps"` document). -/
def apps_stop_loop (all_rt : List (Str × JValue)) (ts : Str) (killOk : Int → Bool) :
    List Str → FileState → Option (FileState × List (Str × Int × Bool))
  | [], file => some (file, [])
  | n :: rest, file =>
      match stopPid ((all_rt.lookup n).getD (.obj [])) with
      | none => none
      | some pid =>
          match mark_stopped file n ts with
          | none => none
          | some f₁ =>
              match apps_stop_loop all_rt ts killOk rest f₁ with
              | none => none
              | some (f₂, sigs) => some (f₂, sentFor n pid (killOk pid) ++ sigs)

/-- Model of `apps_stop` over an already-selected target list: the runtime document is
loaded once, then each target is processed in order. -/
def apps_stop (file : FileState) (targets : List Str) (ts : Str) (killOk : Int → Bool) :
    Option (FileState × List (Str × Int × Bool)) :=
  apps_stop_loop (loadApps file) ts killOk targets file

lemma lookup_setKey_self {α : Type} (l : List (Str × α)) (k : Str) (v : α) :
    (setKey l k v).lookup k = some v := by
  induction l with
  | nil => simp [setKey, List.lookup]
  | cons x rest ih =>
      obtain ⟨k', v'⟩ := x
      rw [setKey]
      by_cases hk : k' = k
      · rw [if_pos hk]
        simp [List.lookup]
      · rw [if_neg hk]
        rw [List.lookup, beq_eq_false_iff_ne.mpr (Ne.symm hk)]
        exact ih

lemma lookup_setKey_ne {α : Type} (l : List (Str × α)) (k m : Str) (v : α)
    (h : m ≠ k) : (setKey l k v).lookup m = l.lookup m := by
  induction l with
  | nil => simp [setKey, List.lookup, beq_eq_false_iff_ne.mpr h]
  | cons x rest ih =>
      obtain ⟨k', v'⟩ := x
      by_cases hk : k' = k
      · subst hk
        simp [setKey, List.lookup, beq_eq_false_iff_ne.mpr h]
      · cases hm : (m == k') with
        | true => simp [setKey, hk, List.lookup, hm]
        | false => simp [setKey, hk, List.lookup, hm, ih]

lemma setKey_keys {α : Type} (l : List (Str × α)) (k : Str) (v : α)
    (h : (l.lookup k).isSome = true) :
    (setKey l k v).map Prod.fst = l.map Prod.fst := by
  induction l with
  | nil => simp [List.lookup] at h
  | cons x rest ih =>
      obtain ⟨k', v'⟩ := x
      rw [setKey]
      by_cases hk : k' = k
      · rw [if_pos hk]
        simp [hk]
      · rw [if_neg hk]
        rw [List.lookup, beq_eq_false_iff_ne.mpr (fun he => hk he.symm)] at h
        simp [ih h]

lemma setdefault_of_isSome {α : Type} (l : List (Str × α)) (k : Str) (v : α)
    (h : (l.lookup k).isSome = true) : setdefault l k v = l := by
  rw [setdefault, if_pos h]

lemma lookup_append_right {α : Type} (l : List (Str × α)) (k : Str) (v : α)
    (h : l.lookup k = none) : (l ++ [(k, v)]).lookup k = some v := by
  induction l with
  | nil => simp [List.lookup]
  | cons x rest ih =>
      obtain ⟨k', v'⟩ := x
      rw [List.lookup] at h
      by_cases hk : k == k'
      · rw [hk] at h; cases h
      · rw [List.cons_append, List.lookup, Bool.eq_false_iff.mpr hk]
        rw [Bool.eq_false_iff.mpr hk] at h
        exact ih h

lemma load_runtime_kvs_has_apps (file : FileState) :
    (((load_runtime_kvs file).lookup (str "apps")).isSome) = true := by
  match file with
  | none => rfl
  | some none => rfl
  | some (some v) =>
      cases v with
      | obj kvs =>
          rw [load_runtime_kvs, setdefault]
          by_cases h : (kvs.lookup (str "apps")).isSome
          · rw [if_pos h]; exact h
          · rw [if_neg h]
            rw [lookup_append_right kvs (str "apps") (.obj [])
              (by cases hl : kvs.lookup (str "apps") with
                  | none => rfl
                  | some w => rw [hl] at h; simp at h)]
            rfl
      | null => rfl
      | bool b => rfl
      | num n => rfl
      | str s => rfl
      | arr xs => rfl

lemma loadApps_save (kvs apps : List (Str × JValue))
    (h : kvs.lookup (str "apps") = some (.obj apps)) :
    loadApps (save_runtime (.obj kvs)) = apps := by
  rw [loadApps]
  have hs : (kvs.lookup (str "apps")).isSome = true := by rw [h]; rfl
  simp only [load_runtime_kvs, save_runtime, setdefault_of_isSome _ _ _ hs, h]

lemma loadApps_eq_of_lookup (file : FileState) (apps : List (Str × JValue))
    (h : (load_runtime_kvs file).lookup (str "apps") = some (.obj apps)) :
    loadApps file = apps := by
  rw [loadApps, h]

lemma update_frame (file : FileState) (n : Str) (payload : JValue) (m : Str)
    (hm : m ≠ n) :
    ∀ f', update_runtime_running file n payload = some f' →
      storedApp f' m = storedApp file m := by
  intro f' hf
  have hA := load_runtime_kvs_has_apps file
  rw [update_runtime_running, load_runtime] at hf
  dsimp only at hf
  rw [setdefault_of_isSome _ _ _ hA] at hf
  cases hAl : (load_runtime_kvs file).lookup (str "apps") with
  | none => rw [hAl] at hA; cases hA
  | some v =>
      rw [hAl] at hf
      cases v with
      | obj apps =>
          simp only [Option.some.injEq] at hf
          subst hf
          rw [storedApp, storedApp,
            loadApps_save _ _ (lookup_setKey_self _ _ _),
            loadApps_eq_of_lookup file apps hAl,
            lookup_setKey_ne _ _ _ _ hm]
      | null => cases hf
      | bool b => cases hf
      | num k => cases hf
      | str s => cases hf
      | arr xs => cases hf

lemma mark_frame (file : FileState) (t ts m : Str) (hm : m ≠ t) :
    ∀ f', mark_stopped file t ts = some f' →
      storedApp f' m = storedApp file m := by
  intro f' hf
  have hA := load_runtime_kvs_has_apps file
  rw [mark_stopped, load_runtime] at hf
  dsimp only at hf
  cases hAl : (load_runtime_kvs file).lookup (str "apps") with
  | none => rw [hAl] at hA; cases hA
  | some v =>
      cases v with
      | obj apps =>
          simp only [hAl] at hf
          cases hIl : apps.lookup t with
          | some w =>
              cases w with
              | obj info =>
                  simp only [hIl, Option.some.injEq] at hf
                  subst hf
                  rw [storedApp, storedApp,
                    loadApps_save _ _ (lookup_setKey_self _ _ _),
                    loadApps_eq_of_lookup file apps hAl,
                    lookup_setKey_ne _ _ _ _ hm]
              | null =>
                  simp only [hIl, Option.some.injEq] at hf
                  subst hf
                  rw [storedApp, storedApp, loadApps_save _ _ hAl,
                    loadApps_eq_of_lookup file apps hAl]
              | bool b =>
                  simp only [hIl, Option.some.injEq] at hf
                  subst hf
                  rw [storedApp, storedApp, loadApps_save _ _ hAl,
                    loadApps_eq_of_lookup file apps hAl]
              | num k =>
                  simp only [hIl, Option.some.injEq] at hf
                  subst hf
                  rw [storedApp, storedApp, loadApps_save _ _ hAl,
                    loadApps_eq_of_lookup file apps hAl]
              | str s =>
                  simp only [hIl, Option.some.injEq] at hf
                  subst hf
                  rw [storedApp, storedApp, loadApps_save _ _ hAl,
                    loadApps_eq_of_lookup file apps hAl]
              | arr xs =>
                  simp only [hIl, Option.some.injEq] at hf
                  subst hf
                  rw [storedApp, storedApp, loadApps_save _ _ hAl,
                    loadApps_eq_of_lookup file apps hAl]
          | none =>
              simp only [hIl, Option.some.injEq] at hf
              subst hf
              rw [storedApp, storedApp, loadApps_save _ _ hAl,
                loadApps_eq_of_lookup file apps hAl]
      | null => simp only [hAl] at hf; cases hf
      | bool b => simp only [hAl] at hf; cases hf
      | num k => simp only [hAl] at hf; cases hf
      | str s => simp only [hAl] at hf; cases hf
      | arr xs => simp only [hAl] at hf; cases hf

lemma mark_keys (file : FileState) (t ts : Str)
    (hnone : storedApp file t = none) :
    ∀ f', mark_stopped file t ts = some f' →
      (loadApps f').map Prod.fst = (loadApps file).map Prod.fst := by
  intro f' hf
  have hA := load_runtime_kvs_has_apps file
  rw [mark_stopped, load_runtime] at hf
  dsimp only at hf
  cases hAl : (load_runtime_kvs file).lookup (str "apps") with
  | none => rw [hAl] at hA; cases hA
  | some v =>
      cases v with
      | obj apps =>
          have happs : loadApps file = apps := loadApps_eq_of_lookup file apps hAl
          rw [storedApp, happs] at hnone
          simp only [hAl, hnone, Option.some.injEq] at hf
          subst hf
          rw [loadApps_save _ _ hAl, happs]
      | null => simp only [hAl] at hf; cases hf
      | bool b => simp only [hAl] at hf; cases hf
      | num k => simp only [hAl] at hf; cases hf
      | str s => simp only [hAl] at hf; cases hf
      | arr xs => simp only [hAl] at hf; cases hf

/-- C10: `update_runtime_running(path, n, payload)` and `mark_stopped(path, n)`
leave the stored record of every app name other than `n` unchanged, and
`mark_stopped` for a name with no existing record leaves the set of recorded
app names unchanged (it never creates a record). -/
theorem runtime_ops_frame (file : FileState) (n : Str) (payload : JValue)
    (ts m : Str) (hm : m ≠ n) :
    (∀ f', update_runtime_running file n payload = some f' →
        storedApp f' m = storedApp file m) ∧
      (∀ f', mark_stopped file n ts = some f' →
        storedApp f' m = storedApp file m) ∧
      (storedApp file n = none → ∀ f', mark_stopped file n ts = some f' →
        (loadApps f').map Prod.fst = (loadApps file).map Prod.fst) :=
  ⟨update_frame file n payload m hm, mark_frame file n ts m hm,
    fun hnone => mark_keys file n ts hnone⟩

/-- Witness for C10 on a concrete store holding records for `"a"` and `"b"`:
updating and stopping `"a"` (name `n := "a"`, observer `m := "b"`). -/
theorem runtime_ops_frame_witness :
    (∀ f', update_runtime_running
        (save_runtime (.obj [(str "apps",
          .obj [(str "a", .obj [(str "pid", .num 7)]),
                (str "b", .obj [(str "pid", .num 9)])])]))
        (str "a") .null = some f' →
      storedApp f' (str "b") = storedApp
        (save_runtime (.obj [(str "apps",
          .obj [(str "a", .obj [(str "pid", .num 7)]),
                (str "b", .obj [(str "pid", .num 9)])])])) (str "b")) ∧
      (∀ f', mark_stopped
          (save_runtime (.obj [(str "apps",
            .obj [(str "a", .obj [(str "pid", .num 7)]),
                  (str "b", .obj [(str "pid", .num 9)])])]))
          (str "a") (str "T") = some f' →
        storedApp f' (str "b") = storedApp
          (save_runtime (.obj [(str "apps",
            .obj [(str "a", .obj [(str "pid", .num 7)]),
                  (str "b", .obj [(str "pid", .num 9)])])])) (str "b")) ∧
      (storedApp
          (save_runtime (.obj [(str "apps",
            .obj [(str "a", .obj [(str "pid", .num 7)]),
                  (str "b", .obj [(str "pid", .num 9)])])])) (str "a") = none →
        ∀ f', mark_stopped
            (save_runtime (.obj [(str "apps",
              .obj [(str "a", .obj [(str "pid", .num 7)]),
                    (str "b", .obj [(str "pid", .num 9)])])]))
            (str "a") (str "T") = some f' →
          (loadApps f').map Prod.fst = (loadApps
            (save_runtime (.obj [(str "apps",
              .obj [(str "a", .obj [(str "pid", .num 7)]),
                    (str "b", .obj [(str "pid", .num 9)])])]))).map Prod.fst) :=
  runtime_ops_frame
    (save_runtime (.obj [(str "apps",
      .obj [(str "a", .obj [(str "pid", .num 7)]),
            (str "b", .obj [(str "pid", .num 9)])])]))
    (str "a") .null (str "T") (str "b") (by decide)

lemma markedInfo_running (info : List (Str × JValue)) (ts : Str) :
    (markedInfo info ts).lookup (str "running") = some (.bool false) :=
  lookup_setKey_self _ _ _

lemma markedInfo_stopped_at (info : List (Str × JValue)) (ts : Str) :
    (markedInfo info ts).lookup (str "stopped_at") = some (.str ts) := by
  rw [markedInfo, lookup_setKey_ne _ _ _ _ (by decide), lookup_setKey_self]

lemma mem_sentFor {x : Str × Int × Bool} {n : Str} {pid : Int} {d : Bool}
    (hx : x ∈ sentFor n pid d) : x = (n, pid, d) ∧ 0 < pid := by
  rw [sentFor] at hx
  by_cases hp : 0 < pid
  · rw [if_pos hp] at hx
    exact ⟨List.mem_singleton.mp hx, hp⟩
  · rw [if_neg hp] at hx
    cases hx

lemma sentFor_map (n : Str) (pid : Int) (d d' : Bool) :
    (sentFor n pid d).map (fun x => (x.1, x.2.1))
      = (sentFor n pid d').map (fun x => (x.1, x.2.1)) := by
  rw [sentFor, sentFor]
  by_cases hp : 0 < pid
  · rw [if_pos hp, if_pos hp]
    rfl
  · rw [if_neg hp, if_neg hp]

lemma mark_stopped_marks (file : FileState) (t ts : Str)
    (info : List (Str × JValue)) (h : storedApp file t = some (.obj info)) :
    ∃ f', mark_stopped file t ts = some f' ∧
      storedApp f' t = some (.obj (markedInfo info ts)) := by
  have hA := load_runtime_kvs_has_apps file
  cases hAl : (load_runtime_kvs file).lookup (str "apps") with
  | none => rw [hAl] at hA; cases hA
  | some v =>
      cases v with
      | obj apps =>
          have happs : loadApps file = apps := loadApps_eq_of_lookup file apps hAl
          rw [storedApp, happs] at h
          refine ⟨save_runtime (.obj (setKey (load_runtime_kvs file) (str "apps")
              (.obj (setKey apps t (.obj (markedInfo info ts)))))), ?_, ?_⟩
          · rw [mark_stopped, load_runtime]
            dsimp only
            simp only [hAl, h]
          · rw [storedApp, loadApps_save _ _ (lookup_setKey_self _ _ _),
              lookup_setKey_self]
      | null => simp [storedApp, loadApps, hAl, List.lookup] at h
      | bool b => simp [storedApp, loadApps, hAl, List.lookup] at h
      | num k => simp [storedApp, loadApps, hAl, List.lookup] at h
      | str s => simp [storedApp, loadApps, hAl, List.lookup] at h
      | arr xs => simp [storedApp, loadApps, hAl, List.lookup] at h

/-- The record of `n` shows `running = false` with stop timestamp `ts`. -/
def stoppedRec (file : FileState) (n ts : Str) : Prop :=
  ∃ info', storedApp file n = some (.obj info') ∧
    info'.lookup (str "running") = some (.bool false) ∧
    info'.lookup (str "stopped_at") = some (.str ts)

lemma mark_stopped_preserves (file : FileState) (t ts : Str) (f' : FileState)
    (hmk : mark_stopped file t ts = some f') (n : Str)
    (hP : stoppedRec file n ts) : stoppedRec f' n ts := by
  by_cases ht : n = t
  · subst ht
    obtain ⟨info', hst, hr, hs⟩ := hP
    obtain ⟨f'', hf'', hst'⟩ := mark_stopped_marks file n ts info' hst
    rw [hmk] at hf''
    cases hf''
    exact ⟨markedInfo info' ts, hst', markedInfo_running _ _,
      markedInfo_stopped_at _ _⟩
  · obtain ⟨info', hst, hr, hs⟩ := hP
    exact ⟨info', (mark_frame file t ts n ht f' hmk).symm ▸ hst, hr, hs⟩

lemma apps_stop_loop_preserves (all_rt : List (Str × JValue)) (ts : Str)
    (killOk : Int → Bool) :
    ∀ (targets : List Str) (file f' : FileState)
      (sigs : List (Str × Int × Bool)),
      apps_stop_loop all_rt ts killOk targets file = some (f', sigs) →
      ∀ n, stoppedRec file n ts → stoppedRec f' n ts := by
  intro targets
  induction targets with
  | nil =>
      intro file f' sigs h n hP
      rw [apps_stop_loop] at h
      cases h
      exact hP
  | cons t rest ih =>
      intro file f' sigs h n hP
      rw [apps_stop_loop] at h
      split at h
      · cases h
      · rename_i pid hpid
        split at h
        · cases h
        · rename_i f₁ hmk
          split at h
          · cases h
          · rename_i f₂ sigs₂ hloop
            cases h
            exact ih f₁ f' sigs₂ hloop n (mark_stopped_preserves file t ts f₁ hmk n hP)

lemma apps_stop_loop_marks (all_rt : List (Str × JValue)) (ts : Str)
    (killOk : Int → Bool) :
    ∀ (targets : List Str) (file f' : FileState)
      (sigs : List (Str × Int × Bool)),
      apps_stop_loop all_rt ts killOk targets file = some (f', sigs) →
      ∀ n ∈ targets, ∀ info, storedApp file n = some (.obj info) →
        stoppedRec f' n ts := by
  intro targets
  induction targets with
  | nil => intro file f' sigs h n hn; cases hn
  | cons t rest ih =>
      intro file f' sigs h n hn info hinfo
      rw [apps_stop_loop] at h
      split at h
      · cases h
      · rename_i pid hpid
        split at h
        · cases h
        · rename_i f₁ hmk
          split at h
          · cases h
          · rename_i f₂ sigs₂ hloop
            cases h
            by_cases htn : n = t
            · subst htn
              obtain ⟨f₁', hf₁', hst'⟩ := mark_stopped_marks file n ts info hinfo
              rw [hmk] at hf₁'
              cases hf₁'
              exact apps_stop_loop_preserves all_rt ts killOk rest f₁ f' sigs₂
                hloop n ⟨markedInfo info ts, hst', markedInfo_running _ _,
                  markedInfo_stopped_at _ _⟩
            · rcases List.mem_cons.mp hn with heq | hmem
              · exact absurd heq htn
              · exact ih f₁ f' sigs₂ hloop n hmem info
                  ((mark_frame file t ts n htn f₁ hmk).symm ▸ hinfo)

lemma apps_stop_loop_sigs (all_rt : List (Str × JValue)) (ts : Str)
    (killOk : Int → Bool) :
    ∀ (targets : List Str) (file f' : FileState)
      (sigs : List (Str × Int × Bool)),
      apps_stop_loop all_rt ts killOk targets file = some (f', sigs) →
      ∀ x ∈ sigs, ∃ pid, stopPid ((all_rt.lookup x.1).getD (.obj [])) = some pid ∧
        0 < pid ∧ x.2.1 = pid := by
  intro targets
  induction targets with
  | nil =>
      intro file f' sigs h x hx
      rw [apps_stop_loop] at h
      cases h
      cases hx
  | cons t rest ih =>
      intro file f' sigs h x hx
      rw [apps_stop_loop] at h
      split at h
      · cases h
      · rename_i pid hpid
        split at h
        · cases h
        · rename_i f₁ hmk
          split at h
          · cases h
          · rename_i f₂ sigs₂ hloop
            cases h
            rcases List.mem_append.mp hx with hx1 | hx2
            · obtain ⟨hxeq, hp⟩ := mem_sentFor hx1
              subst hxeq
              exact ⟨pid, hpid, hp, rfl⟩
            · exact ih f₁ f' sigs₂ hloop x hx2

lemma apps_stop_loop_killOk (all_rt : List (Str × JValue)) (ts : Str)
    (k₁ k₂ : Int → Bool) :
    ∀ (targets : List Str) (file f' : FileState)
      (sigs : List (Str × Int × Bool)),
      apps_stop_loop all_rt ts k₁ targets file = some (f', sigs) →
      ∃ sigs₂, apps_stop_loop all_rt ts k₂ targets file = some (f', sigs₂) ∧
        sigs₂.map (fun x => (x.1, x.2.1)) = sigs.map (fun x => (x.1, x.2.1)) := by
  intro targets
  induction targets with
  | nil =>
      intro file f' sigs h
      rw [apps_stop_loop] at h
      cases h
      exact ⟨[], rfl, rfl⟩
  | cons t rest ih =>
      intro file f' sigs h
      rw [apps_stop_loop] at h
      split at h
      · cases h
      · rename_i pid hpid
        split at h
        · cases h
        · rename_i f₁ hmk
          split at h
          · cases h
          · rename_i f₂ sigs₂ hloop
            cases h
            obtain ⟨sigs₃, hloop₂, hmap⟩ := ih f₁ f' sigs₂ hloop
            refine ⟨sentFor t pid (k₂ pid) ++ sigs₃, ?_, ?_⟩
            · simp only [apps_stop_loop, hpid, hmk, hloop₂]
            · rw [List.map_append, List.map_append, hmap,
                sentFor_map t pid (k₂ pid) (k₁ pid)]

/-- C9: for every target app `n` of a stop operation that completes, `n`'s
record is marked `running = false` with the stop timestamp; the final store
state is identical for every signal-delivery outcome (delivery errors are
swallowed, never fatal); and a target whose snapshot record carries no
positive pid has no signal attempted for it. -/
theorem apps_stop_correct (file : FileState) (targets : List Str) (ts : Str)
    (killOk : Int → Bool) (f' : FileState) (sigs : List (Str × Int × Bool))
    (hrun : apps_stop file targets ts killOk = some (f', sigs))
    (n : Str) (hn : n ∈ targets)
    (info : List (Str × JValue)) (hinfo : storedApp file n = some (.obj info)) :
    stoppedRec f' n ts ∧
      (∀ killOk2, ∃ sigs2, apps_stop file targets ts killOk2 = some (f', sigs2) ∧
          sigs2.map (fun x => (x.1, x.2.1)) = sigs.map (fun x => (x.1, x.2.1))) ∧
      (∀ pid, stopPid (((loadApps file).lookup n).getD (.obj [])) = some pid →
          pid ≤ 0 → ∀ x ∈ sigs, x.1 ≠ n) := by
  refine ⟨apps_stop_loop_marks (loadApps file) ts killOk targets file f' sigs
      hrun n hn info hinfo, ?_, ?_⟩
  · intro killOk2
    exact apps_stop_loop_killOk (loadApps file) ts killOk killOk2 targets
      file f' sigs hrun
  · intro pid hpid hple x hx hxn
    obtain ⟨pid', hpid', hpos, _⟩ :=
      apps_stop_loop_sigs (loadApps file) ts killOk targets file f' sigs
        hrun x hx
    rw [hxn] at hpid'
    rw [hpid] at hpid'
    cases hpid'
    omega

/-- Witness for C9: a store holding record `a ↦ {"pid": 0, "running": true}`,
single target `"a"`, timestamp `"T"`, a delivery oracle that always fails;
the run completes, marks the record stopped, and attempts no signal. -/
theorem apps_stop_correct_witness :
    stoppedRec
        (save_runtime (.obj [(str "apps",
          .obj [(str "a",
            .obj [(str "pid", .num 0), (str "running", .bool false),
                  (str "stopped_at", .str (str "T"))])])]))
        (str "a") (str "T") ∧
      (∀ killOk2, ∃ sigs2,
          apps_stop
              (save_runtime (.obj [(str "apps",
                .obj [(str "a",
                  .obj [(str "pid", .num 0), (str "running", .bool true)])])]))
              [str "a"] (str "T") killOk2
            = some (save_runtime (.obj [(str "apps",
                .obj [(str "a",
                  .obj [(str "pid", .num 0), (str "running", .bool false),
                        (str "stopped_at", .str (str "T"))])])]), sigs2) ∧
          sigs2.map (fun x => (x.1, x.2.1))
            = ([] : List (Str × Int × Bool)).map (fun x => (x.1, x.2.1))) ∧
      (∀ pid, stopPid (((loadApps
            (save_runtime (.obj [(str "apps",
              .obj [(str "a",
                .obj [(str "pid", .num 0), (str "running", .bool true)])])]))).lookup
            (str "a")).getD (.obj [])) = some pid →
          pid ≤ 0 → ∀ x ∈ ([] : List (Str × Int × Bool)), x.1 ≠ str "a") :=
  apps_stop_correct
    (save_runtime (.obj [(str "apps",
      .obj [(str "a", .obj [(str "pid", .num 0), (str "running", .bool true)])])]))
    [str "a"] (str "T") (fun _ => false)
    (save_runtime (.obj [(str "apps",
      .obj [(str "a",
        .obj [(str "pid", .num 0), (str "running", .bool false),
              (str "stopped_at", .str (str "T"))])])]))
    [] (by rfl) (str "a") (List.mem_singleton.mpr rfl)
    [(str "pid", .num 0), (str "running", .bool true)] (by rfl)

/-! ## Artifact packager (`launchpad/packager.py`, `launchpad/apps/pack.py`,
`pack` and `apps_pack` in `launchpad/cli.py`) -/

/-- The constant `MANIFEST_FILE_NAME = "artifact.manifest.json"`. -/
def MANIFEST_FILE_NAME : Str := str "artifact.manifest.json"

/-- One element of a manifest's `files` list: an object row carries the
`str(row.get("path", ""))` and `str(row.get("sha256", ""))` projections; a
non-object row is `invalid` ("Invalid manifest row"). -/
inductive ManifestRow where
  | row (path : Str) (sha256 : Str)
  | invalid
deriving DecidableEq

/-- The manifest document built by `build_manifest`. -/
structure Manifest where
  project_name : Str
  target : Str
  prompt_sha256 : Str
  timestamp : Str
  files : List ManifestRow
deriving DecidableEq

/-- File contents: raw bytes, or the JSON serialization of a manifest (JSON
serialization is injective, so the serialized form is represented by the
manifest value itself). -/
inductive FileContent where
  | bytes (data : List Nat)
  | manifest (m : Manifest)
deriving DecidableEq

/-- A filesystem entry as enumerated by `Path.rglob("*")`. -/
inductive Entry where
  | file (c : FileContent)
  | dir
deriving DecidableEq

/-- A directory tree: its recursive listing as relative-path/entry pairs. -/
abbrev FS := List (Str × Entry)

/-- Path order on listing entries: pathlib compares paths by their string
form, so entries sort by relative path. -/
def fsLE (a b : Str × Entry) : Prop := a.1 ≤ b.1

instance : DecidableRel fsLE := fun a b =>
  (inferInstance : Decidable (a.1 ≤ b.1))

instance : IsTotal (Str × Entry) fsLE := ⟨fun a b => le_total a.1 b.1⟩

instance : IsTrans (Str × Entry) fsLE :=
  ⟨fun _ _ _ hab hbc => le_trans hab hbc⟩

/-- Model of `sorted(source_dir.rglob("*"))`: ascending stable sort by path. -/
def sortFS (fs : FS) : FS := List.insertionSort fsLE fs

/-- The `files` loop of `build_manifest`: walk the sorted listing, `continue`
on directories and on the manifest file itself, record
`{"path": rel, "sha256": sha256(file)}`. -/
def manifestFiles (h : FileContent → Str) (fs : FS) : List ManifestRow :=
  (sortFS fs).filterMap (fun pe =>
    match pe.2 with
    | .dir => none
    | .file c =>
        if pe.1 = MANIFEST_FILE_NAME then none else some (.row pe.1 (h c)))

/-- Model of `build_manifest(source_dir, ...)`: `h` is the SHA-256 oracle for file
contents (`_sha256_file`, streamed in 8192-byte chunks), `hstr` hashes the
prompt (`_sha256_bytes(prompt.encode("utf-8"))`), and `ts` is the
`generated_at or now()` timestamp. -/
def build_manifest (h : FileContent → Str) (hstr : Str → Str) (fs : FS)
    (project_name target prompt ts : Str) : Manifest :=
  { project_name := project_name
    target := target
    prompt_sha256 := hstr prompt
    timestamp := ts
    files := manifestFiles h fs }

/-- Model of `write_manifest`: write the manifest JSON at
`source_dir / artifact.manifest.json`, replacing any existing file there. -/
def write_manifest (fs : FS) (m : Manifest) : FS :=
  setKey fs MANIFEST_FILE_NAME (.file (.manifest m))

/-- Model of `read_manifest`: parse `source_dir / artifact.manifest.json`; `none`
models the exception raised when the file is missing or its text is not a
serialized manifest object. -/
def read_manifest (fs : FS) : Option Manifest :=
  match fs.lookup MANIFEST_FILE_NAME with
  | some (.file (.manifest m)) => some m
  | _ => none

/-- One iteration of the `verify_manifest_dir` loop: `none` when the row
passes, `some msg` for the error it appends before `continue`. -/
def verifyRowDir (h : FileContent → Str) (fs : FS) : ManifestRow → Option Str
  | .invalid => some (str "Invalid manifest row")
  | .row rel expected =>
      match fs.lookup rel with
      | some (.file c) =>
          if h c = expected then none else some (str "Hash mismatch: " ++ rel)
      | _ => some (str "Missing file: " ++ rel)

/-- Model of `verify_manifest_dir(source_dir)`: read the manifest, check every row,
accumulate all errors, return `(len(errors) == 0, errors)`.  (A manifest
whose `files` value is not a list is not representable in `Manifest`; that
guard is outside the model.)  `none` models a raised read/parse error. -/
def verify_manifest_dir (h : FileContent → Str) (fs : FS) :
    Option (Bool × List Str) :=
  match read_manifest fs with
  | none => none
  | some m =>
      let errors := m.files.filterMap (verifyRowDir h fs)
      some (errors.isEmpty, errors)

/-- A zip archive: the ordered entries `(arcname, content)`.  Byte-identical
archives correspond to identical entry lists: deflate is deterministic, and
entry metadata (file modification times) is outside the model. -/
abbrev Zip := List (Str × FileContent)

/-- Model of `zip_dir`: write every file (never directories) in sorted path order. -/
def zip_dir (fs : FS) : Zip :=
  (sortFS fs).filterMap (fun pe =>
    match pe.2 with
    | .dir => none
    | .file c => some (pe.1, c))

/-- One iteration of the `verify_manifest_zip` loop, reading entries by
arcname. -/
def verifyRowZip (h : FileContent → Str) (z : Zip) : ManifestRow → Option Str
  | .invalid => some (str "Invalid manifest row")
  | .row rel expected =>
      match z.lookup rel with
      | some c =>
          if h c = expected then none
          else some (str "Hash mismatch in zip: " ++ rel)
      | none => some (str "Missing file in zip: " ++ rel)

/-- Model of `verify_manifest_zip(zip_path)`: a missing manifest entry yields the
single "Missing ... in zip" error; an entry that does not deserialize to a
manifest raises (`none`); otherwise every row is checked and all errors
accumulated. -/
def verify_manifest_zip (h : FileContent → Str) (z : Zip) :
    Option (Bool × List Str) :=
  match z.lookup MANIFEST_FILE_NAME with
  | none => some (false, [str "Missing " ++ MANIFEST_FILE_NAME ++ str " in zip"])
  | some (.manifest m) =>
      let errors := m.files.filterMap (verifyRowZip h z)
      some (errors.isEmpty, errors)
  | some (.bytes _) => none

/-- The `pack` command (`launchpad/cli.py`): build the manifest (with the
`now()` timestamp `ts`), write it into the directory, zip the directory.
Returns the manifest and the archive. -/
def pack (h : FileContent → Str) (hstr : Str → Str) (fs : FS)
    (project_name target prompt ts : Str) : Manifest × Zip :=
  let m := build_manifest h hstr fs project_name target prompt ts
  (m, zip_dir (write_manifest fs m))

/-! ### Exclusion rules (`launchpad/apps/pack.py`) and `apps_pack` -/

/-- The component names `should_exclude` always rejects. -/
def EXCL_ALWAYS : List Str :=
  [str ".git", str "node_modules", str ".venv", str "venv",
   str "__pycache__", str ".pytest_cache", str ".turbo", str ".cache"]

/-- The build-output component names rejected unless
`include_build_output`. -/
def EXCL_BUILD : List Str := [str "dist", str "build", str ".next"]

/-- Model of `str.replace` for a single-character needle
(`rel_path.replace("\\", "/")`). -/
def replaceChar (old new : Char) (s : Str) : Str :=
  s.map (fun c => if c = old then new else c)

/-- Python `str.split(sep)` for a single-character separator: `"".split`
gives `[""]`, adjacent separators give empty groups. -/
def splitOnChar (c : Char) : Str → List Str
  | [] => [[]]
  | x :: xs =>
      match splitOnChar c xs with
      | [] => [[]]
      | g :: gs => if x = c then [] :: g :: gs else (x :: g) :: gs

/-- Model of `should_exclude(rel_path, include_build_output)` from
`launchpad/apps/pack.py`. -/
def should_exclude (rel_path : Str) (include_build_output : Bool) : Bool :=
  let parts := splitOnChar '/' (replaceChar '\\' '/' rel_path)
  if parts.any (fun p =>
      EXCL_ALWAYS.contains p || (!include_build_output && EXCL_BUILD.contains p))
  then true
  else
    let nm := (parts.getLast?).getD []
    (str ".db").isSuffixOf nm || (str ".sqlite").isSuffixOf nm

/-- The copy loop of `apps_pack` (`launchpad/cli.py`): files (never
directories) surviving `should_exclude` are copied into the fresh staging
tree at the same relative path.  (The copy also materializes parent
directories in the staging tree; they are omitted here because
`build_manifest` and `zip_dir` skip directories.) -/
def pack_tree (fs : FS) (include_build_output : Bool) : FS :=
  fs.filterMap (fun pe =>
    match pe.2 with
    | .dir => none
    | .file c =>
        if should_exclude pe.1 include_build_output then none
        else some (pe.1, Entry.file c))

/-- Model of `apps_pack(name, out, include_build_output)`: stage the filtered tree,
build and write its manifest (`prompt=""`), and zip the staging tree. -/
def apps_pack (h : FileContent → Str) (hstr : Str → Str) (fs : FS)
    (name app_type ts : Str) (include_build_output : Bool) : Manifest × Zip :=
  let tmp := pack_tree fs include_build_output
  let m := build_manifest h hstr tmp name app_type (str "") ts
  (m, zip_dir (write_manifest tmp m))

/-- Whether `comp` occurs as a path component of `p` (under the same normalization
`should_exclude` applies). -/
def hasComponent (p comp : Str) : Bool :=
  (splitOnChar '/' (replaceChar '\\' '/' p)).contains comp

lemma lookup_eq_some_of_mem {α : Type} (l : List (Str × α)) (k : Str) (v : α)
    (hmem : (k, v) ∈ l) (hnd : (l.map Prod.fst).Nodup) : l.lookup k = some v := by
  induction l with
  | nil => cases hmem
  | cons x rest ih =>
      obtain ⟨k', v'⟩ := x
      rw [List.map_cons] at hnd
      have hnd1 := List.nodup_cons.mp hnd
      rcases List.mem_cons.mp hmem with heq | hmem'
      · injection heq with h1 h2
        subst h1
        subst h2
        rw [List.lookup, beq_self_eq_true]
      · have hk : k ≠ k' := by
          intro hEq
          subst hEq
          exact hnd1.1 (List.mem_map.mpr ⟨(k, v), hmem', rfl⟩)
        rw [List.lookup, beq_eq_false_iff_ne.mpr hk]
        exact ih hmem' hnd1.2

lemma mem_of_mem_sortFS {pe : Str × Entry} {fs : FS} (hpe : pe ∈ sortFS fs) :
    pe ∈ fs :=
  (List.perm_insertionSort fsLE fs).mem_iff.mp hpe

/-- C2: building a manifest of a directory, writing it into the directory,
and verifying the directory against it succeeds — `ok = true` with an empty
error list — immediately after packing, for any non-empty tree (with
distinct paths, as real filesystems have). -/
theorem pack_verify_roundtrip (h : FileContent → Str) (hstr : Str → Str)
    (fs : FS) (pn tg pr ts : Str)
    (hnd : (fs.map Prod.fst).Nodup) (hne : fs ≠ []) :
    verify_manifest_dir h
      (write_manifest fs (build_manifest h hstr fs pn tg pr ts))
      = some (true, []) := by
  have hread : read_manifest
      (write_manifest fs (build_manifest h hstr fs pn tg pr ts))
      = some (build_manifest h hstr fs pn tg pr ts) := by
    rw [read_manifest, write_manifest, lookup_setKey_self]
  have herr : (build_manifest h hstr fs pn tg pr ts).files.filterMap
      (verifyRowDir h (write_manifest fs (build_manifest h hstr fs pn tg pr ts)))
      = [] := by
    rw [List.filterMap_eq_nil_iff]
    intro row hrow
    have hrow' : row ∈ manifestFiles h fs := hrow
    rw [manifestFiles] at hrow'
    obtain ⟨pe, hpe, hf⟩ := List.mem_filterMap.mp hrow'
    obtain ⟨p, e⟩ := pe
    cases e with
    | dir => cases hf
    | file c =>
        dsimp only at hf
        by_cases hpM : p = MANIFEST_FILE_NAME
        · rw [if_pos hpM] at hf
          cases hf
        · rw [if_neg hpM] at hf
          cases hf
          have hlk : fs.lookup p = some (Entry.file c) :=
            lookup_eq_some_of_mem fs p (Entry.file c) (mem_of_mem_sortFS hpe) hnd
          rw [verifyRowDir, write_manifest, lookup_setKey_ne _ _ _ _ hpM, hlk]
          dsimp only
          rw [if_pos rfl]
  rw [verify_manifest_dir, hread]
  dsimp only
  rw [herr]
  rfl

/-- Witness for C2 on a concrete one-file directory. -/
theorem pack_verify_roundtrip_witness :
    verify_manifest_dir (fun _ => str "H")
      (write_manifest [(str "a.txt", Entry.file (.bytes [1]))]
        (build_manifest (fun _ => str "H") (fun _ => str "H")
          [(str "a.txt", Entry.file (.bytes [1]))] (str "p") (str "python")
          (str "") (str "T"))) = some (true, []) :=
  pack_verify_roundtrip (fun _ => str "H") (fun _ => str "H")
    [(str "a.txt", Entry.file (.bytes [1]))] (str "p") (str "python")
    (str "") (str "T") (by decide) (by decide)

/-- Row classification for dir verification: the file is absent (or not a
regular file) at the recorded relative path. -/
def rowMissingDir (fs : FS) : ManifestRow → Bool
  | .invalid => false
  | .row rel _ =>
      match fs.lookup rel with
      | some (.file _) => false
      | _ => true

/-- Row classification for dir verification: the file exists but its
recomputed digest differs from the recorded one. -/
def rowMismatchDir (h : FileContent → Str) (fs : FS) : ManifestRow → Bool
  | .invalid => false
  | .row rel expected =>
      match fs.lookup rel with
      | some (.file c) => decide (h c ≠ expected)
      | _ => false

/-- Row classification: a non-object row. -/
def rowInvalid : ManifestRow → Bool
  | .row _ _ => false
  | .invalid => true

/-- Row classification for zip verification: no entry at the arcname. -/
def rowMissingZip (z : Zip) : ManifestRow → Bool
  | .invalid => false
  | .row rel _ => (z.lookup rel).isNone

/-- Row classification for zip verification: digest mismatch. -/
def rowMismatchZip (h : FileContent → Str) (z : Zip) : ManifestRow → Bool
  | .invalid => false
  | .row rel expected =>
      match z.lookup rel with
      | some c => decide (h c ≠ expected)
      | none => false

lemma length_filterMap_eq_countP {α β : Type} (f : α → Option β) (l : List α) :
    (l.filterMap f).length = l.countP (fun a => (f a).isSome) := by
  induction l with
  | nil => rfl
  | cons x xs ih =>
      cases hx : f x with
      | none => simp [List.filterMap_cons, hx, List.countP_cons, ih]
      | some b => simp [List.filterMap_cons, hx, List.countP_cons, ih]

lemma verifyRowDir_isSome (h : FileContent → Str) (fs : FS) (row : ManifestRow) :
    (verifyRowDir h fs row).isSome
      = (rowMissingDir fs row || rowMismatchDir h fs row || rowInvalid row) := by
  cases row with
  | invalid => rfl
  | row rel expected =>
      cases hlk : fs.lookup rel with
      | none =>
          simp [verifyRowDir, rowMissingDir, rowMismatchDir, rowInvalid, hlk]
      | some e =>
          cases e with
          | file c =>
              by_cases hc : h c = expected <;>
                simp [verifyRowDir, rowMissingDir, rowMismatchDir, rowInvalid,
                  hlk, hc]
          | dir =>
              simp [verifyRowDir, rowMissingDir, rowMismatchDir, rowInvalid, hlk]

lemma verifyRowDir_missing (h : FileContent → Str) (fs : FS) (rel sha : Str)
    (hmiss : rowMissingDir fs (.row rel sha) = true) :
    verifyRowDir h fs (.row rel sha) = some (str "Missing file: " ++ rel) := by
  cases hlk : fs.lookup rel with
  | none => simp [verifyRowDir, hlk]
  | some e =>
      cases e with
      | file c => simp [rowMissingDir, hlk] at hmiss
      | dir => simp [verifyRowDir, hlk]

lemma verifyRowDir_mismatch (h : FileContent → Str) (fs : FS) (rel sha : Str)
    (hmm : rowMismatchDir h fs (.row rel sha) = true) :
    verifyRowDir h fs (.row rel sha) = some (str "Hash mismatch: " ++ rel) := by
  cases hlk : fs.lookup rel with
  | none => simp [rowMismatchDir, hlk] at hmm
  | some e =>
      cases e with
      | file c =>
          rw [rowMismatchDir] at hmm
          rw [hlk] at hmm
          simp at hmm
          simp [verifyRowDir, hlk, hmm]
      | dir => simp [rowMismatchDir, hlk] at hmm

lemma verifyRowZip_isSome (h : FileContent → Str) (z : Zip) (row : ManifestRow) :
    (verifyRowZip h z row).isSome
      = (rowMissingZip z row || rowMismatchZip h z row || rowInvalid row) := by
  cases row with
  | invalid => rfl
  | row rel expected =>
      cases hlk : z.lookup rel with
      | none =>
          simp [verifyRowZip, rowMissingZip, rowMismatchZip, rowInvalid, hlk]
      | some c =>
          by_cases hc : h c = expected <;>
            simp [verifyRowZip, rowMissingZip, rowMismatchZip, rowInvalid,
              hlk, hc]

lemma verifyRowZip_missing (h : FileContent → Str) (z : Zip) (rel sha : Str)
    (hmiss : rowMissingZip z (.row rel sha) = true) :
    verifyRowZip h z (.row rel sha) = some (str "Missing file in zip: " ++ rel) := by
  cases hlk : z.lookup rel with
  | none => simp [verifyRowZip, hlk]
  | some c => simp [rowMissingZip, hlk] at hmiss

lemma verifyRowZip_mismatch (h : FileContent → Str) (z : Zip) (rel sha : Str)
    (hmm : rowMismatchZip h z (.row rel sha) = true) :
    verifyRowZip h z (.row rel sha) = some (str "Hash mismatch in zip: " ++ rel) := by
  cases hlk : z.lookup rel with
  | none => simp [rowMismatchZip, hlk] at hmm
  | some c =>
      rw [rowMismatchZip] at hmm
      rw [hlk] at hmm
      simp at hmm
      simp [verifyRowZip, hlk, hmm]

/-- C7: both verifiers process every manifest row without stopping at the
first failure: the error list is exactly the accumulated per-row errors in
row order, contains the "Missing" entry for every missing file and the
"Hash mismatch" entry for every digest mismatch, has exactly one entry per
bad row (missing, mismatched, or invalid), and the `ok` flag is `true`
exactly when the error list is empty. -/
theorem verify_accumulates (h : FileContent → Str) (fs : FS) (z : Zip)
    (m mz : Manifest)
    (hread : read_manifest fs = some m)
    (hreadz : z.lookup MANIFEST_FILE_NAME = some (.manifest mz)) :
    (∃ errors, verify_manifest_dir h fs = some (errors.isEmpty, errors) ∧
      errors = m.files.filterMap (verifyRowDir h fs) ∧
      (errors.isEmpty = true ↔ errors = []) ∧
      errors.length = m.files.countP (fun r =>
        rowMissingDir fs r || rowMismatchDir h fs r || rowInvalid r) ∧
      (∀ rel sha, ManifestRow.row rel sha ∈ m.files →
        rowMissingDir fs (.row rel sha) = true →
        (str "Missing file: " ++ rel) ∈ errors) ∧
      (∀ rel sha, ManifestRow.row rel sha ∈ m.files →
        rowMismatchDir h fs (.row rel sha) = true →
        (str "Hash mismatch: " ++ rel) ∈ errors)) ∧
    (∃ errors, verify_manifest_zip h z = some (errors.isEmpty, errors) ∧
      errors = mz.files.filterMap (verifyRowZip h z) ∧
      (errors.isEmpty = true ↔ errors = []) ∧
      errors.length = mz.files.countP (fun r =>
        rowMissingZip z r || rowMismatchZip h z r || rowInvalid r) ∧
      (∀ rel sha, ManifestRow.row rel sha ∈ mz.files →
        rowMissingZip z (.row rel sha) = true →
        (str "Missing file in zip: " ++ rel) ∈ errors) ∧
      (∀ rel sha, ManifestRow.row rel sha ∈ mz.files →
        rowMismatchZip h z (.row rel sha) = true →
        (str "Hash mismatch in zip: " ++ rel) ∈ errors)) := by
  constructor
  · refine ⟨m.files.filterMap (verifyRowDir h fs), ?_, rfl, ?_, ?_, ?_, ?_⟩
    · rw [verify_manifest_dir, hread]
    · cases m.files.filterMap (verifyRowDir h fs) <;> simp
    · rw [length_filterMap_eq_countP,
        funext (verifyRowDir_isSome h fs)]
    · intro rel sha hmem hmiss
      exact List.mem_filterMap.mpr
        ⟨.row rel sha, hmem, verifyRowDir_missing h fs rel sha hmiss⟩
    · intro rel sha hmem hmm
      exact List.mem_filterMap.mpr
        ⟨.row rel sha, hmem, verifyRowDir_mismatch h fs rel sha hmm⟩
  · refine ⟨mz.files.filterMap (verifyRowZip h z), ?_, rfl, ?_, ?_, ?_, ?_⟩
    · rw [verify_manifest_zip, hreadz]
    · cases mz.files.filterMap (verifyRowZip h z) <;> simp
    · rw [length_filterMap_eq_countP,
        funext (verifyRowZip_isSome h z)]
    · intro rel sha hmem hmiss
      exact List.mem_filterMap.mpr
        ⟨.row rel sha, hmem, verifyRowZip_missing h z rel sha hmiss⟩
    · intro rel sha hmem hmm
      exact List.mem_filterMap.mpr
        ⟨.row rel sha, hmem, verifyRowZip_mismatch h z rel sha hmm⟩

/-- Concrete digest oracle for the C7 witness. -/
def exHash : FileContent → Str :=
  fun c => if c = .bytes [1] then str "H1" else str "H2"

/-- Concrete manifest for the C7 witness: one passing row, one mismatching
row, one missing row, one invalid row. -/
def exManifest : Manifest :=
  { project_name := str "p"
    target := str "t"
    prompt_sha256 := str "ph"
    timestamp := str "T"
    files := [.row (str "good.txt") (str "H1"),
              .row (str "bad.txt") (str "XX"),
              .row (str "gone.txt") (str "H1"),
              .invalid] }

/-- Concrete directory for the C7 witness. -/
def exFS : FS :=
  [(MANIFEST_FILE_NAME, .file (.manifest exManifest)),
   (str "good.txt", .file (.bytes [1])),
   (str "bad.txt", .file (.bytes [2]))]

/-- Concrete archive for the C7 witness. -/
def exZip : Zip :=
  [(MANIFEST_FILE_NAME, .manifest exManifest),
   (str "good.txt", .bytes [1]),
   (str "bad.txt", .bytes [2])]

/-- Witness for C7 on the concrete fixtures. -/
theorem verify_accumulates_witness :
    (∃ errors, verify_manifest_dir exHash exFS = some (errors.isEmpty, errors) ∧
      errors = exManifest.files.filterMap (verifyRowDir exHash exFS) ∧
      (errors.isEmpty = true ↔ errors = []) ∧
      errors.length = exManifest.files.countP (fun r =>
        rowMissingDir exFS r || rowMismatchDir exHash exFS r || rowInvalid r) ∧
      (∀ rel sha, ManifestRow.row rel sha ∈ exManifest.files →
        rowMissingDir exFS (.row rel sha) = true →
        (str "Missing file: " ++ rel) ∈ errors) ∧
      (∀ rel sha, ManifestRow.row rel sha ∈ exManifest.files →
        rowMismatchDir exHash exFS (.row rel sha) = true →
        (str "Hash mismatch: " ++ rel) ∈ errors)) ∧
    (∃ errors, verify_manifest_zip exHash exZip = some (errors.isEmpty, errors) ∧
      errors = exManifest.files.filterMap (verifyRowZip exHash exZip) ∧
      (errors.isEmpty = true ↔ errors = []) ∧
      errors.length = exManifest.files.countP (fun r =>
        rowMissingZip exZip r || rowMismatchZip exHash exZip r || rowInvalid r) ∧
      (∀ rel sha, ManifestRow.row rel sha ∈ exManifest.files →
        rowMissingZip exZip (.row rel sha) = true →
        (str "Missing file in zip: " ++ rel) ∈ errors) ∧
      (∀ rel sha, ManifestRow.row rel sha ∈ exManifest.files →
        rowMismatchZip exHash exZip (.row rel sha) = true →
        (str "Hash mismatch in zip: " ++ rel) ∈ errors)) :=
  verify_accumulates exHash exFS exZip exManifest exManifest
    (by rfl) (by rfl)

lemma orderedInsert_eq_cons (x : Str × Entry) (m : List (Str × Entry))
    (hall : ∀ z ∈ m, fsLE x z) : List.orderedInsert fsLE x m = x :: m := by
  cases m with
  | nil => rfl
  | cons w ws => rw [List.orderedInsert, if_pos (hall w (List.mem_cons_self w ws))]

lemma filter_orderedInsert (p : Str × Entry → Bool) (x : Str × Entry) :
    ∀ l : List (Str × Entry), l.Sorted fsLE →
      (List.orderedInsert fsLE x l).filter p =
        if p x then List.orderedInsert fsLE x (l.filter p) else l.filter p := by
  intro l
  induction l with
  | nil =>
      intro _
      by_cases hx : p x <;> simp [hx]
  | cons y l ih =>
      intro hs
      by_cases hxy : fsLE x y
      · rw [List.orderedInsert, if_pos hxy]
        by_cases hx : p x
        · rw [if_pos hx]
          have hall : ∀ z ∈ (y :: l).filter p, fsLE x z := by
            intro z hz
            have hz' : z ∈ y :: l := List.mem_of_mem_filter hz
            rcases List.mem_cons.mp hz' with rfl | hz''
            · exact hxy
            · exact IsTrans.trans x y z hxy (List.rel_of_sorted_cons hs z hz'')
          rw [orderedInsert_eq_cons x _ hall, List.filter_cons, if_pos hx]
        · rw [if_neg hx, List.filter_cons, if_neg hx]
      · rw [List.orderedInsert, if_neg hxy]
        have ih' := ih hs.of_cons
        by_cases hy : p y
        · by_cases hx : p x
          · rw [List.filter_cons, if_pos hy, ih', if_pos hx, if_pos hx,
              List.filter_cons, if_pos hy, List.orderedInsert, if_neg hxy]
          · rw [List.filter_cons, if_pos hy, ih', if_neg hx, if_neg hx,
              List.filter_cons, if_pos hy]
        · by_cases hx : p x
          · rw [List.filter_cons, if_neg hy, ih', if_pos hx, if_pos hx,
              List.filter_cons, if_neg hy]
          · rw [List.filter_cons, if_neg hy, ih', if_neg hx, if_neg hx,
              List.filter_cons, if_neg hy]

lemma filter_sortFS (p : Str × Entry → Bool) (l : FS) :
    (sortFS l).filter p = sortFS (l.filter p) := by
  have hIS : ∀ (a : Str × Entry) (m : List (Str × Entry)),
      List.insertionSort fsLE (a :: m)
        = List.orderedInsert fsLE a (List.insertionSort fsLE m) := fun _ _ => rfl
  induction l with
  | nil => rfl
  | cons x l ih =>
      rw [sortFS, hIS,
        filter_orderedInsert p x _ (List.sorted_insertionSort fsLE l)]
      rw [sortFS] at ih
      by_cases hx : p x
      · rw [if_pos hx, ih, List.filter_cons, if_pos hx, sortFS, sortFS, hIS]
      · rw [if_neg hx, ih, List.filter_cons, if_neg hx]

lemma filter_setKey {α : Type} (l : List (Str × α)) (k : Str) (v : α) :
    (setKey l k v).filter (fun x => !(x.1 == k))
      = l.filter (fun x => !(x.1 == k)) := by
  induction l with
  | nil => simp [setKey]
  | cons y l ih =>
      obtain ⟨k', v'⟩ := y
      by_cases hk : k' = k
      · subst hk
        simp [setKey]
      · have hb : (k' == k) = false := beq_eq_false_iff_ne.mpr hk
        simp [setKey, hk, hb, ih]

lemma filterMap_filter_eq {α β : Type} (f : α → Option β) (p : α → Bool)
    (hf : ∀ x, p x = false → f x = none) (l : List α) :
    (l.filter p).filterMap f = l.filterMap f := by
  induction l with
  | nil => rfl
  | cons x l ih =>
      by_cases hx : p x
      · rw [List.filter_cons, if_pos hx, List.filterMap_cons, List.filterMap_cons]
        cases f x <;> rw [ih]
      · rw [List.filter_cons, if_neg hx, List.filterMap_cons,
          hf x (by simpa using hx), ih]

lemma setKey_setKey {α : Type} (l : List (Str × α)) (k : Str) (v w : α) :
    setKey (setKey l k v) k w = setKey l k w := by
  induction l with
  | nil => simp [setKey]
  | cons y l ih =>
      obtain ⟨k', v'⟩ := y
      by_cases hk : k' = k
      · subst hk
        simp [setKey]
      · simp [setKey, hk, ih]

lemma manifestFiles_setKey (h : FileContent → Str) (fs : FS) (v : Entry) :
    manifestFiles h (setKey fs MANIFEST_FILE_NAME v) = manifestFiles h fs := by
  have hf : ∀ pe : Str × Entry, (!(pe.1 == MANIFEST_FILE_NAME)) = false →
      (match pe.2 with
       | Entry.dir => none
       | Entry.file c =>
           if pe.1 = MANIFEST_FILE_NAME then none
           else some (ManifestRow.row pe.1 (h c))) = none := by
    intro pe hpe
    have hMF : pe.1 = MANIFEST_FILE_NAME := by simpa using hpe
    obtain ⟨p1, e⟩ := pe
    cases e with
    | dir => rfl
    | file c =>
        dsimp only
        rw [if_pos hMF]
  rw [manifestFiles, manifestFiles,
    ← filterMap_filter_eq _ _ hf (sortFS (setKey fs MANIFEST_FILE_NAME v)),
    ← filterMap_filter_eq _ _ hf (sortFS fs),
    filter_sortFS, filter_sortFS, filter_setKey]

lemma build_manifest_write (h : FileContent → Str) (hstr : Str → Str)
    (fs : FS) (m : Manifest) (pn tg pr ts : Str) :
    build_manifest h hstr (write_manifest fs m) pn tg pr ts
      = build_manifest h hstr fs pn tg pr ts := by
  simp only [build_manifest, write_manifest, manifestFiles_setKey]

lemma zip_dir_mem {g : FS} {x : Str × FileContent} (hx : x ∈ zip_dir g) :
    (x.1, Entry.file x.2) ∈ g := by
  rw [zip_dir] at hx
  obtain ⟨pe, hpe, hf⟩ := List.mem_filterMap.mp hx
  obtain ⟨p1, e⟩ := pe
  cases e with
  | dir => cases hf
  | file c =>
      dsimp only at hf
      cases hf
      exact mem_of_mem_sortFS hpe

/-- C3 counterexample: the `pack` command stamps the manifest with a fresh
`now()` timestamp, so packing the same unchanged one-file directory twice
(the second pack sees the manifest written by the first) produces different
archives when the two timestamps differ — the embedded manifest file
differs, so the zips are not byte-identical. -/
theorem pack_twice_differs :
    (pack (fun _ => str "H") (fun _ => str "H")
        (write_manifest [(str "a.txt", Entry.file (.bytes [1]))]
          (build_manifest (fun _ => str "H") (fun _ => str "H")
            [(str "a.txt", Entry.file (.bytes [1]))]
            (str "p") (str "python") (str "") (str "T1")))
        (str "p") (str "python") (str "") (str "T2")).2
      ≠ (pack (fun _ => str "H") (fun _ => str "H")
          [(str "a.txt", Entry.file (.bytes [1]))]
          (str "p") (str "python") (str "") (str "T1")).2 := by decide

/-- C3 amended: with the manifest timestamp held fixed, repacking the
directory exactly as the first pack left it (manifest included) yields an
archive with identical entries in identical order — byte-identical up to
entry metadata — because paths are written in sorted order and the manifest
file is excluded from its own listing; and archives never contain directory
entries, every entry being one of the directory's files. -/
theorem pack_repack_stable (h : FileContent → Str) (hstr : Str → Str)
    (fs : FS) (pn tg pr ts : Str) :
    (pack h hstr (write_manifest fs
        (build_manifest h hstr fs pn tg pr ts)) pn tg pr ts).2
      = (pack h hstr fs pn tg pr ts).2 ∧
    ∀ x ∈ (pack h hstr fs pn tg pr ts).2,
      (x.1, Entry.file x.2)
        ∈ write_manifest fs (build_manifest h hstr fs pn tg pr ts) := by
  constructor
  · rw [pack, pack]
    dsimp only
    rw [build_manifest_write]
    simp only [write_manifest]
    rw [setKey_setKey]
  · intro x hx
    rw [pack] at hx
    dsimp only at hx
    exact zip_dir_mem hx

/-- Witness for C3's amended statement on a concrete one-file directory. -/
theorem pack_repack_stable_witness :
    (pack (fun _ => str "H") (fun _ => str "H")
        (write_manifest [(str "a.txt", Entry.file (.bytes [1]))]
          (build_manifest (fun _ => str "H") (fun _ => str "H")
            [(str "a.txt", Entry.file (.bytes [1]))]
            (str "p") (str "python") (str "") (str "T1")))
        (str "p") (str "python") (str "") (str "T1")).2
      = (pack (fun _ => str "H") (fun _ => str "H")
          [(str "a.txt", Entry.file (.bytes [1]))]
          (str "p") (str "python") (str "") (str "T1")).2 ∧
    ∀ x ∈ (pack (fun _ => str "H") (fun _ => str "H")
        [(str "a.txt", Entry.file (.bytes [1]))]
        (str "p") (str "python") (str "") (str "T1")).2,
      (x.1, Entry.file x.2)
        ∈ write_manifest [(str "a.txt", Entry.file (.bytes [1]))]
            (build_manifest (fun _ => str "H") (fun _ => str "H")
              [(str "a.txt", Entry.file (.bytes [1]))]
              (str "p") (str "python") (str "") (str "T1")) :=
  pack_repack_stable (fun _ => str "H") (fun _ => str "H")
    [(str "a.txt", Entry.file (.bytes [1]))]
    (str "p") (str "python") (str "") (str "T1")

lemma mem_setKey {α : Type} {x : Str × α} {l : List (Str × α)} {k : Str} {v : α}
    (hx : x ∈ setKey l k v) : x = (k, v) ∨ x ∈ l := by
  induction l with
  | nil =>
      rw [setKey] at hx
      exact Or.inl (List.mem_singleton.mp hx)
  | cons y l ih =>
      obtain ⟨k', v'⟩ := y
      rw [setKey] at hx
      by_cases hk : k' = k
      · rw [if_pos hk] at hx
        rcases List.mem_cons.mp hx with heq | hmem
        · exact Or.inl heq
        · exact Or.inr (List.mem_cons_of_mem _ hmem)
      · rw [if_neg hk] at hx
        rcases List.mem_cons.mp hx with heq | hmem
        · exact Or.inr (heq ▸ List.mem_cons_self _ _)
        · rcases ih hmem with h1 | h2
          · exact Or.inl h1
          · exact Or.inr (List.mem_cons_of_mem _ h2)

lemma mem_pack_tree {fs : FS} {incl : Bool} {x : Str × Entry}
    (hx : x ∈ pack_tree fs incl) : should_exclude x.1 incl = false := by
  rw [pack_tree] at hx
  obtain ⟨pe, hpe, hf⟩ := List.mem_filterMap.mp hx
  obtain ⟨p1, e⟩ := pe
  cases e with
  | dir => cases hf
  | file c =>
      dsimp only at hf
      by_cases hx1 : should_exclude p1 incl
      · rw [if_pos hx1] at hf
        cases hf
      · rw [if_neg hx1] at hf
        cases hf
        simpa using hx1

lemma not_component_of_not_excluded (p comp : Str)
    (hse : should_exclude p false = false)
    (hcomp : (EXCL_ALWAYS.contains comp || EXCL_BUILD.contains comp) = true) :
    hasComponent p comp = false := by
  by_cases hc : hasComponent p comp = true
  · exfalso
    rw [hasComponent] at hc
    rw [should_exclude] at hse
    dsimp only at hse
    have hany : (splitOnChar '/' (replaceChar '\\' '/' p)).any
        (fun q => EXCL_ALWAYS.contains q
          || (!false && EXCL_BUILD.contains q)) = true := by
      rw [List.any_eq_true]
      refine ⟨comp, by simpa using hc, ?_⟩
      cases hA : EXCL_ALWAYS.contains comp with
      | true => simp
      | false =>
          rw [hA] at hcomp
          simp at hcomp
          simp [hcomp]
    rw [if_pos hany] at hse
    cases hse
  · simpa using hc

lemma apps_pack_path_ok (h : FileContent → Str) (hstr : Str → Str) (fs : FS)
    (nm tp ts : Str) (p : Str)
    (hp : (∃ c, (p, c) ∈ (apps_pack h hstr fs nm tp ts false).2) ∨
          (∃ sha, ManifestRow.row p sha
            ∈ (apps_pack h hstr fs nm tp ts false).1.files)) :
    p = MANIFEST_FILE_NAME ∨ should_exclude p false = false := by
  have h2 : (apps_pack h hstr fs nm tp ts false).2
      = zip_dir (write_manifest (pack_tree fs false)
          (build_manifest h hstr (pack_tree fs false) nm tp (str "") ts)) := rfl
  have h1 : (apps_pack h hstr fs nm tp ts false).1.files
      = manifestFiles h (pack_tree fs false) := rfl
  rcases hp with ⟨c, hc⟩ | ⟨sha, hsha⟩
  · rw [h2] at hc
    have hmem := zip_dir_mem hc
    rw [write_manifest] at hmem
    rcases mem_setKey hmem with heq | hmem'
    · exact Or.inl (congrArg Prod.fst heq)
    · exact Or.inr (mem_pack_tree hmem')
  · rw [h1, manifestFiles] at hsha
    obtain ⟨pe, hpe, hf⟩ := List.mem_filterMap.mp hsha
    obtain ⟨p1, e⟩ := pe
    cases e with
    | dir => cases hf
    | file c =>
        dsimp only at hf
        by_cases hpM : p1 = MANIFEST_FILE_NAME
        · rw [if_pos hpM] at hf
          cases hf
        · rw [if_neg hpM] at hf
          injection hf with hf'
          injection hf' with hfp hfs
          subst hfp
          exact Or.inr (mem_pack_tree (mem_of_mem_sortFS hpe))

/-- C8: packing an app directory without the include-build-output flag
produces a zip and a manifest in which no file path has `node_modules`,
`.git`, or `dist` as a path component — in particular every file under
those subtrees is excluded from both. -/
theorem apps_pack_excludes (h : FileContent → Str) (hstr : Str → Str)
    (fs : FS) (nm tp ts : Str) (p : Str)
    (hp : (∃ c, (p, c) ∈ (apps_pack h hstr fs nm tp ts false).2) ∨
          (∃ sha, ManifestRow.row p sha
            ∈ (apps_pack h hstr fs nm tp ts false).1.files)) :
    hasComponent p (str "node_modules") = false ∧
      hasComponent p (str ".git") = false ∧
      hasComponent p (str "dist") = false := by
  rcases apps_pack_path_ok h hstr fs nm tp ts p hp with hMF | hok
  · subst hMF
    exact ⟨by decide, by decide, by decide⟩
  · exact ⟨not_component_of_not_excluded _ _ hok (by decide),
      not_component_of_not_excluded _ _ hok (by decide),
      not_component_of_not_excluded _ _ hok (by decide)⟩

/-- Witness for C8: a directory holding `node_modules/x.js`, `.git/config`,
`dist/main.js` and `src/app.py`; the packed zip contains `src/app.py`, whose
path indeed has none of the three components. -/
theorem apps_pack_excludes_witness :
    hasComponent (str "src/app.py") (str "node_modules") = false ∧
      hasComponent (str "src/app.py") (str ".git") = false ∧
      hasComponent (str "src/app.py") (str "dist") = false :=
  apps_pack_excludes (fun _ => str "H") (fun _ => str "H")
    [(str "node_modules/x.js", .file (.bytes [1])),
     (str ".git/config", .file (.bytes [2])),
     (str "dist/main.js", .file (.bytes [3])),
     (str "src/app.py", .file (.bytes [4]))]
    (str "demo") (str "python") (str "T") (str "src/app.py")
    (Or.inl ⟨.bytes [4], by decide⟩)

end Launchpad
